import Mathlib

/-!
# Verification of fastify-api-key

A shallow embedding of the core of the `fastify-api-key` plugin
(`src/extractors.ts`, `src/validators.ts`, `src/utils.ts`, `src/errors.ts`,
`src/plugin.ts`) together with proofs of its specification properties.

JavaScript strings are modelled by Lean `String`; `undefined`/`null` by
`Option`; JS objects used as string-keyed maps by functions
`String → Option _`.  The request decoration performed by the guard is
modelled by the data the guard attaches (or does not attach) to the
request, carried in the guard's outcome.
-/

namespace FastifyApiKey

/-- JavaScript `String.prototype.toLowerCase`, modelled character-wise. -/
def jsToLower (s : String) : String := ⟨s.data.map Char.toLower⟩

/-- JavaScript `String.prototype.trim`: strip whitespace from both
ends. -/
def jsTrim (s : String) : String :=
  ⟨((s.data.dropWhile Char.isWhitespace).reverse.dropWhile Char.isWhitespace).reverse⟩

/-- JavaScript `s.startsWith(p)`. -/
def jsStartsWith (s p : String) : Bool := p.data.isPrefixOf s.data

/-- JavaScript `s.slice(n)` for a non-negative index `n`. -/
def jsDrop (s : String) (n : Nat) : String := ⟨s.data.drop n⟩

/-- JavaScript `s.length` (the length of the underlying character
sequence). -/
def jsLength (s : String) : Nat := s.data.length

/-- A value read out of a parsed query string or body: the code only
accepts plain strings and treats anything else as absent. -/
inductive JsVal where
  | str (s : String)
  | nonString
deriving DecidableEq, Repr

/-- A header value as Node exposes it: a single string or an array of
strings for repeated headers. -/
inductive HeaderVal where
  | single (s : String)
  | multi (l : List String)
deriving DecidableEq, Repr

/-- The inbound request as consumed by the extractor: lowercase-keyed
headers, optional parsed query, optional parsed body, optional pre-parsed
cookie map. -/
structure Request where
  headers : String → Option HeaderVal
  query : Option (String → Option JsVal)
  body : Option (String → Option JsVal)
  cookies : Option (String → Option String)

/-- The `ApiKeySource.type` field in `src/types.ts`. -/
inductive SourceType where
  | header
  | query
  | body
  | cookie
deriving DecidableEq, Repr

/-- A source descriptor (`ApiKeySource` in `src/types.ts`).  The optional
`prefix` field of the source is named `pfx` here because `prefix` is a
keyword in Lean. -/
structure ApiKeySource where
  type : SourceType
  name : String
  pfx : Option String := none
deriving DecidableEq, Repr

/-- JavaScript truthiness of an optional string: `undefined`, `null` and
`""` are falsy. -/
def strTruthy : Option String → Bool
  | none => false
  | some s => s ≠ ""

/-- Embedding of `extractFromSource` in `src/extractors.ts`: read the raw value from
the described location, return `null` if it is falsy, strip a configured
(truthy) prefix when the value starts with it, and trim whitespace. -/
def extractFromSource (request : Request) (source : ApiKeySource) : Option String :=
  let value : Option String :=
    match source.type with
    | .header =>
      match request.headers (jsToLower source.name) with
      | some (.single s) => some s
      | some (.multi l) => l.head?
      | none => none
    | .query =>
      match request.query with
      | some q =>
        match q source.name with
        | some (.str s) => some s
        | _ => none
      | none => none
    | .body =>
      match request.body with
      | some b =>
        match b source.name with
        | some (.str s) => some s
        | _ => none
      | none => none
    | .cookie =>
      match request.cookies with
      | some c => c source.name
      | none => none
  match value with
  | none => none
  | some v =>
    if v = "" then none
    else
      match source.pfx with
      | some p =>
        if p ≠ "" ∧ jsStartsWith v p then some (jsTrim (jsDrop v (jsLength p)))
        else some (jsTrim v)
      | none => some (jsTrim v)

/-- Embedding of `extractApiKey` in `src/extractors.ts`: try the sources in order and
return the first truthy extracted key. -/
def extractApiKey (request : Request) (sources : List ApiKeySource) : Option String :=
  match sources with
  | [] => none
  | source :: rest =>
    match extractFromSource request source with
    | some k => if k = "" then extractApiKey request rest else some k
    | none => extractApiKey request rest

/-- Embedding of `hasAllScopes` in `src/utils.ts`. -/
def hasAllScopes (provided required : List String) : Bool :=
  required.all fun scope => provided.contains scope

/-- Embedding of `hasAnyScope` in `src/utils.ts`. -/
def hasAnyScope (provided required : List String) : Bool :=
  required.any fun scope => provided.contains scope

/-- The `ScopeValidationResult` interface in `src/validators.ts`. -/
structure ScopeValidationResult where
  valid : Bool
  missing : Option (List String) := none
deriving DecidableEq, Repr

/-- Embedding of `validateScopes` in `src/validators.ts`. -/
def validateScopes (providedScopes : List String)
    (requiredScopes anyScopes : Option (List String)) : ScopeValidationResult :=
  let anyCheck : ScopeValidationResult :=
    match anyScopes with
    | some anys =>
      if anys.length > 0 && ! hasAnyScope providedScopes anys then
        { valid := false, missing := some anys }
      else
        { valid := true }
    | none => { valid := true }
  match requiredScopes with
  | some req =>
    if req.length > 0 && ! hasAllScopes providedScopes req then
      { valid := false
        missing := some (req.filter fun s => ! providedScopes.contains s) }
    else anyCheck
  | none => anyCheck

/-- A JavaScript value handed to `timingSafeCompare`: the function first
checks `typeof` and rejects anything that is not a string. -/
inductive JsInput where
  | str (s : String)
  | nonString
deriving DecidableEq, Repr

/-- Node's `crypto.timingSafeEqual` on two equal-length buffers: byte-wise
equality (the constant-time execution is not observable in the value
model).  `Buffer.from` on a string is modelled by its character sequence,
which the UTF-8 encoding determines injectively. -/
def timingSafeEqual (a b : List Char) : Bool :=
  a = b

/-- Embedding of `timingSafeCompare` in `src/utils.ts`: false on non-string input;
on differing buffer lengths a self-comparison is performed (its result is
discarded) and false is returned; otherwise the buffers are compared. -/
def timingSafeCompare (a b : JsInput) : Bool :=
  match a, b with
  | .str sa, .str sb =>
    let bufA := sa.data
    let bufB := sb.data
    if bufA.length ≠ bufB.length then
      false
    else
      timingSafeEqual bufA bufB
  | _, _ => false

/-- Rate-limit data carried through from the caller's validator
(`src/types.ts`). -/
structure RateLimit where
  limit : Int
  remaining : Int
  reset : Int
deriving DecidableEq, Repr

/-- Arbitrary key-value metadata, modelled as an association list. -/
def Metadata := List (String × String)
deriving DecidableEq, Repr

/-- The empty metadata mapping. -/
def Metadata.empty : Metadata := []

/-- The `ApiKeyValidationResult` interface in `src/types.ts`: what the
external validator returns. -/
structure ValidationResult where
  valid : Bool
  scopes : Option (List String) := none
  rateLimit : Option RateLimit := none
  metadata : Option Metadata := none
  errorMessage : Option String := none
deriving DecidableEq, Repr

/-- The structured error taxonomy of `src/errors.ts`, restricted to the
kinds the guard pipeline raises. -/
inductive ApiKeyError where
  | missingApiKey
  | invalidApiKey (message : String)
  | insufficientScopes (requiredScopes providedScopes : List String)
deriving DecidableEq, Repr

/-- The `code` field set by each error constructor in `src/errors.ts`. -/
def ApiKeyError.code : ApiKeyError → String
  | .missingApiKey => "MISSING_API_KEY"
  | .invalidApiKey _ => "INVALID_API_KEY"
  | .insufficientScopes _ _ => "INSUFFICIENT_SCOPES"

/-- The `statusCode` field set by each error constructor in
`src/errors.ts`. -/
def ApiKeyError.statusCode : ApiKeyError → Nat
  | .missingApiKey => 401
  | .invalidApiKey _ => 401
  | .insufficientScopes _ _ => 403

/-- The `message` field set by each error constructor in
`src/errors.ts`. -/
def ApiKeyError.message : ApiKeyError → String
  | .missingApiKey => "API key is required"
  | .invalidApiKey m => m
  | .insufficientScopes required _ =>
    "Insufficient scopes. Required: " ++ String.intercalate ", " required

/-- The `requiredScopes` field of an `InsufficientScopesError`. -/
def ApiKeyError.requiredScopes : ApiKeyError → List String
  | .insufficientScopes required _ => required
  | _ => []

/-- The `providedScopes` field of an `InsufficientScopesError`. -/
def ApiKeyError.providedScopes : ApiKeyError → List String
  | .insufficientScopes _ provided => provided
  | _ => []

/-- The `ApiKeyData` interface in `src/types.ts`: the Authentication
Context attached to the request on success. -/
structure ApiKeyData where
  key : String
  scopes : List String
  rateLimit : Option RateLimit := none
  metadata : Metadata := Metadata.empty
deriving DecidableEq, Repr

/-- Per-route guard configuration (`ApiKeyGuardOptions` in
`src/types.ts`). -/
structure ApiKeyGuardOptions where
  scopes : Option (List String) := none
  anyScope : Option (List String) := none
  allowAnonymous : Option Bool := none
deriving DecidableEq, Repr

/-- The plugin-wide options the guard consults
(`FastifyApiKeyOptions` in `src/types.ts`, after the defaults applied in
`src/plugin.ts`): the source list, the global anonymous default, the
timing-safe redaction flag, and whether a custom error handler is
configured.  The external validator is passed separately as a function;
the decorator name only chooses the request field the context is stored
under and is modelled by the attachment slot of the outcome; the
`onValidation` hook is awaited with its result discarded and does not
influence the guard's outcome, so it is not modelled. -/
structure PluginOptions where
  sources : List ApiKeySource
  allowAnonymous : Bool := false
  timingSafe : Bool := true
  hasErrorHandler : Bool := false

/-- The observable outcome of one guard invocation:
`allowed a` — the guard returned normally, having attached `a` to the
request (`a = some (ctx, sc)` means the Authentication Context `ctx` was
stored under the decorator name and `sc` under `apiKeyScopes`;
`a = none` means nothing was attached);
`handledError e` — the custom error handler received `e` and the guard
returned; `thrownError e` — `e` was thrown. -/
inductive GuardOutcome where
  | allowed (attach : Option (ApiKeyData × List String))
  | handledError (e : ApiKeyError)
  | thrownError (e : ApiKeyError)
deriving DecidableEq, Repr

/-- The data the guard attached to the request, when its outcome attached
any: error outcomes never decorate the request. -/
def GuardOutcome.attached : GuardOutcome → Option (ApiKeyData × List String)
  | .allowed a => a
  | .handledError _ => none
  | .thrownError _ => none

/-- Raise an error as `src/plugin.ts` does at each raise point: hand it
to the custom error handler when one is configured, else throw it. -/
def raiseError (opts : PluginOptions) (e : ApiKeyError) : GuardOutcome :=
  if opts.hasErrorHandler then .handledError e else .thrownError e

/-- The guard produced by `createGuard` in `src/plugin.ts`, as a function
of the request and of the external validator's behaviour on the extracted
key. -/
def createGuard (opts : PluginOptions) (guardOptions : ApiKeyGuardOptions)
    (request : Request) (validate : String → ValidationResult) : GuardOutcome :=
  let shouldAllowAnonymous := guardOptions.allowAnonymous.getD opts.allowAnonymous
  match extractApiKey request opts.sources with
  | none =>
    if shouldAllowAnonymous then .allowed none
    else raiseError opts .missingApiKey
  | some key =>
    let result := validate key
    if ¬ result.valid then
      if shouldAllowAnonymous then .allowed none
      else raiseError opts (.invalidApiKey (result.errorMessage.getD "Invalid API key"))
    else
      let providedScopes := result.scopes.getD []
      let scopeResult := validateScopes providedScopes guardOptions.scopes guardOptions.anyScope
      if ¬ scopeResult.valid then
        raiseError opts
          (.insufficientScopes
            ((guardOptions.scopes.orElse fun _ => guardOptions.anyScope).getD [])
            providedScopes)
      else
        let apiKeyData : ApiKeyData :=
          { key := if opts.timingSafe then "[REDACTED]" else key
            scopes := providedScopes
            rateLimit := result.rateLimit
            metadata := result.metadata.getD Metadata.empty }
        .allowed (some (apiKeyData, providedScopes))

/-- The `DEFAULT_SOURCES` constant in `src/plugin.ts`. -/
def DEFAULT_SOURCES : List ApiKeySource := [{ type := .header, name := "X-API-Key" }]

/-- A request carrying no extractable data at all. -/
def emptyRequest : Request :=
  { headers := fun _ => none, query := none, body := none, cookies := none }

/-- A request carrying a single header, keyed by its lowercase name as
Node delivers it. -/
def headerRequest (nm v : String) : Request :=
  { headers := fun n => if n = nm then some (.single v) else none
    query := none, body := none, cookies := none }

/-- A validator accepting every key and granting the scope list
`["read"]`. -/
def readValidator : String → ValidationResult :=
  fun _ => { valid := true, scopes := some ["read"] }

/-- A validator rejecting every key with a custom message. -/
def rejectValidator : String → ValidationResult :=
  fun _ => { valid := false, errorMessage := some "bad key" }

/-- C9: `timingSafeCompare` returns true exactly when both inputs are
strings and they are exactly equal; inputs of differing lengths and
non-string inputs always give false. -/
theorem timingSafeCompare_true_iff (a b : JsInput) :
    timingSafeCompare a b = true ↔ ∃ s : String, a = .str s ∧ b = .str s := by
  cases a with
  | nonString => simp [timingSafeCompare]
  | str sa =>
    cases b with
    | nonString => simp [timingSafeCompare]
    | str sb =>
      simp only [timingSafeCompare, timingSafeEqual, JsInput.str.injEq]
      by_cases h : sa.data.length = sb.data.length
      · rw [if_neg (not_not.mpr h)]
        simp only [decide_eq_true_eq]
        constructor
        · intro hd
          exact ⟨sa, rfl, (String.ext hd).symm⟩
        · rintro ⟨s, rfl, rfl⟩
          rfl
      · rw [if_pos h]
        simp only [Bool.false_eq_true, false_iff, not_exists]
        rintro s ⟨rfl, rfl⟩
        exact h rfl

/-- Membership reading of the boolean `hasAllScopes`. -/
theorem hasAllScopes_iff (p R : List String) :
    hasAllScopes p R = true ↔ ∀ s ∈ R, s ∈ p := by
  simp [hasAllScopes]

/-- Membership reading of the boolean `hasAnyScope`. -/
theorem hasAnyScope_iff (p A : List String) :
    hasAnyScope p A = true ↔ ∃ s ∈ A, s ∈ p := by
  simp [hasAnyScope]

/-- Helper: the behaviour of the any-of check that `validateScopes` runs
after the all-required check passes. -/
theorem validateScopes_anyCheck (p : List String) (anys : List String) :
    ((if anys.length > 0 && ! hasAnyScope p anys then
        ({ valid := false, missing := some anys } : ScopeValidationResult)
      else { valid := true }).valid = true ↔
      (anys = [] ∨ ∃ s ∈ anys, s ∈ p)) ∧
    (anys ≠ [] → (∀ s ∈ anys, s ∉ p) →
      (if anys.length > 0 && ! hasAnyScope p anys then
        ({ valid := false, missing := some anys } : ScopeValidationResult)
       else { valid := true }) = { valid := false, missing := some anys }) := by
  by_cases hany : ∃ s ∈ anys, s ∈ p
  · have h := (hasAnyScope_iff p anys).mpr hany
    have hne : (anys.length > 0 && ! hasAnyScope p anys) = false := by
      simp [h]
    rw [hne]
    refine ⟨by simp [hany], fun _ hnone => ?_⟩
    obtain ⟨s, hs, hp⟩ := hany
    exact absurd hp (hnone s hs)
  · cases anys with
    | nil => simp [hasAnyScope]
    | cons a l =>
      have h : hasAnyScope p (a :: l) = false := by
        rw [← Bool.not_eq_true, hasAnyScope_iff]
        exact hany
      have hpos : ((a :: l).length > 0 && ! hasAnyScope p (a :: l)) = true := by
        simp [h]
      rw [hpos]
      push_neg at hany
      constructor
      · simp only [if_true]
        constructor
        · intro hfalse
          exact absurd hfalse (by simp)
        · rintro (hnil | ⟨s, hs, hp⟩)
          · cases hnil
          · exact absurd hp (hany s hs)
      · intro _ _
        simp only [if_true]

/-- C3: `validateScopes` returns `valid: true` exactly when every
configured required scope appears in the provided list and, when an
any-of list is configured and non-empty, at least one of its elements
appears; when the all-required check fails, `missing` is the required
scopes absent from the provided list in required-list order; when the
all-required check passes (or is unconfigured) and the any-of check
fails, `missing` is the whole any-of list in its original order. -/
theorem validateScopes_correct (p : List String) (req anys : Option (List String)) :
    ((validateScopes p req anys).valid = true ↔
      ((∀ s ∈ req.getD [], s ∈ p) ∧
        (anys.getD [] = [] ∨ ∃ s ∈ anys.getD [], s ∈ p))) ∧
    ((¬ ∀ s ∈ req.getD [], s ∈ p) →
      validateScopes p req anys =
        { valid := false
          missing := some ((req.getD []).filter fun s => ! p.contains s) }) ∧
    ((∀ s ∈ req.getD [], s ∈ p) → anys.getD [] ≠ [] → (∀ s ∈ anys.getD [], s ∉ p) →
      validateScopes p req anys = { valid := false, missing := some (anys.getD []) }) := by
  have reqNone : ∀ (ro : Option (List String)), ro = none ∨ (∃ r, ro = some r) :=
    fun ro => by cases ro <;> simp
  -- helper: the shape of validateScopes when the all-required check passes or is absent
  cases req with
  | none =>
    cases anys with
    | none => simp [validateScopes]
    | some anys' =>
      have hA := validateScopes_anyCheck p anys'
      refine ⟨?_, ?_, ?_⟩
      · simpa [validateScopes] using hA.1
      · intro h
        exact absurd (by simp) h
      · intro _ hne hnone
        simpa [validateScopes] using hA.2 hne hnone
  | some req' =>
    by_cases hall : ∀ s ∈ req', s ∈ p
    · have h := (hasAllScopes_iff p req').mpr hall
      have hcond : (req'.length > 0 && ! hasAllScopes p req') = false := by
        simp [h]
      cases anys with
      | none =>
        refine ⟨?_, ?_, ?_⟩
        · simp [validateScopes, hcond]
          exact hall
        · intro hk
          exact absurd hall hk
        · intro _ hne _
          exact absurd rfl hne
      | some anys' =>
        have hA := validateScopes_anyCheck p anys'
        refine ⟨?_, ?_, ?_⟩
        · simp only [validateScopes, hcond, Bool.false_eq_true, if_false, Option.getD_some]
          rw [hA.1]
          exact (and_iff_right_of_imp fun _ => hall).symm
        · intro hk
          exact absurd hall hk
        · intro _ hne hnone
          simp only [validateScopes, hcond, Bool.false_eq_true, if_false, Option.getD_some] at *
          exact hA.2 hne hnone
    · have h : hasAllScopes p req' = false := by
        rw [← Bool.not_eq_true, hasAllScopes_iff]
        exact hall
      have hlen : req'.length > 0 := by
        cases req' with
        | nil => exact absurd (by simp) hall
        | cons a l => simp
      have hcond : (req'.length > 0 && ! hasAllScopes p req') = true := by
        simp [h, hlen]
      refine ⟨?_, ?_, ?_⟩
      · simp [validateScopes, hcond, hall]
      · intro _
        simp [validateScopes, hcond]
      · intro hk
        exact absurd hk hall

/-- C8: requirement lists are read with set semantics, so duplicate
entries in `required` or `anyOf` have no effect: requirement lists equal
as sets (in particular a list and its deduplication) give the same
`valid` flag and a `missing` that is present for the same inputs and has
the same members. -/
theorem validateScopes_set_semantics (p R₁ R₂ A₁ A₂ : List String)
    (hR : ∀ s, s ∈ R₁ ↔ s ∈ R₂) (hA : ∀ s, s ∈ A₁ ↔ s ∈ A₂) :
    (validateScopes p (some R₁) (some A₁)).valid
      = (validateScopes p (some R₂) (some A₂)).valid ∧
    ((validateScopes p (some R₁) (some A₁)).missing = none ↔
      (validateScopes p (some R₂) (some A₂)).missing = none) ∧
    (∀ s, s ∈ (validateScopes p (some R₁) (some A₁)).missing.getD [] ↔
      s ∈ (validateScopes p (some R₂) (some A₂)).missing.getD []) := by
  have hallEq : hasAllScopes p R₁ = hasAllScopes p R₂ := by
    by_cases h2 : ∀ s ∈ R₂, s ∈ p
    · rw [(hasAllScopes_iff p R₂).mpr h2,
        (hasAllScopes_iff p R₁).mpr (fun s hs => h2 s ((hR s).mp hs))]
    · have e1 : hasAllScopes p R₁ = false := by
        rw [← Bool.not_eq_true, hasAllScopes_iff]
        intro h1
        exact h2 fun s hs => h1 s ((hR s).mpr hs)
      have e2 : hasAllScopes p R₂ = false := by
        rw [← Bool.not_eq_true, hasAllScopes_iff]
        exact h2
      rw [e1, e2]
  have hanyEq : hasAnyScope p A₁ = hasAnyScope p A₂ := by
    by_cases h2 : ∃ s ∈ A₂, s ∈ p
    · obtain ⟨s, hs, hp⟩ := h2
      rw [(hasAnyScope_iff p A₂).mpr ⟨s, hs, hp⟩,
        (hasAnyScope_iff p A₁).mpr ⟨s, (hA s).mpr hs, hp⟩]
    · have e1 : hasAnyScope p A₁ = false := by
        rw [← Bool.not_eq_true, hasAnyScope_iff]
        intro ⟨s, hs, hp⟩
        exact h2 ⟨s, (hA s).mp hs, hp⟩
      have e2 : hasAnyScope p A₂ = false := by
        rw [← Bool.not_eq_true, hasAnyScope_iff]
        exact h2
      rw [e1, e2]
  have hRlen : (decide (R₁.length > 0)) = (decide (R₂.length > 0)) := by
    rw [decide_eq_decide]
    constructor <;> intro h
    · obtain ⟨s, hs⟩ := List.exists_mem_of_length_pos h
      exact List.length_pos_of_mem ((hR s).mp hs)
    · obtain ⟨s, hs⟩ := List.exists_mem_of_length_pos h
      exact List.length_pos_of_mem ((hR s).mpr hs)
  have hAlen : (decide (A₁.length > 0)) = (decide (A₂.length > 0)) := by
    rw [decide_eq_decide]
    constructor <;> intro h
    · obtain ⟨s, hs⟩ := List.exists_mem_of_length_pos h
      exact List.length_pos_of_mem ((hA s).mp hs)
    · obtain ⟨s, hs⟩ := List.exists_mem_of_length_pos h
      exact List.length_pos_of_mem ((hA s).mpr hs)
  simp only [validateScopes]
  rw [hallEq, hanyEq, hRlen, hAlen]
  by_cases hc : (decide (R₂.length > 0) && ! hasAllScopes p R₂) = true
  · rw [if_pos hc, if_pos hc]
    refine ⟨rfl, by simp, fun s => ?_⟩
    simp only [Option.getD_some, List.mem_filter]
    exact and_congr_left fun _ => hR s
  · rw [if_neg hc, if_neg hc]
    by_cases hc2 : (decide (A₂.length > 0) && ! hasAnyScope p A₂) = true
    · rw [if_pos hc2, if_pos hc2]
      exact ⟨rfl, by simp, fun s => by simpa using hA s⟩
    · rw [if_neg hc2, if_neg hc2]
      exact ⟨rfl, by simp, fun s => Iff.rfl⟩

/-- C7: for a source with a configured prefix and a non-empty raw header
value, the candidate key is the value with the prefix stripped and then
trimmed when the value starts with that exact prefix, and the whole
value, only trimmed, otherwise. -/
theorem extractFromSource_pfx_stripping (request : Request) (nm p v : String)
    (hv : request.headers (jsToLower nm) = some (.single v)) (hne : v ≠ "") :
    extractFromSource request { type := .header, name := nm, pfx := some p } =
      some (if jsStartsWith v p then jsTrim (jsDrop v (jsLength p)) else jsTrim v) := by
  simp only [extractFromSource, hv]
  rw [if_neg hne]
  by_cases hp : p = ""
  · subst hp
    have h0 : ("" : String).data = ([] : List Char) := by decide
    have hsw : jsStartsWith v "" = true := by
      simp [jsStartsWith, h0, List.isPrefixOf]
    have hlen : jsLength "" = 0 := by decide
    have hdrop : jsDrop v 0 = v := rfl
    rw [if_neg (fun h => h.1 rfl), hsw, if_pos rfl, hlen, hdrop]
  · by_cases hsw : jsStartsWith v p = true
    · rw [if_pos ⟨hp, hsw⟩, hsw, if_pos rfl]
    · rw [if_neg (fun h => hsw h.2), if_neg (by simpa using hsw)]

/-- A source contributes no usable key for a request: its post-processed
value is absent or the empty string. -/
def yieldsNoKey (request : Request) (s : ApiKeySource) : Prop :=
  ∀ k, extractFromSource request s = some k → k = ""

/-- Helper: a source whose post-processed value is absent or empty is
skipped by `extractApiKey`. -/
theorem extractApiKey_skips_source (request : Request) (src : ApiKeySource)
    (rest : List ApiKeySource) (h : yieldsNoKey request src) :
    extractApiKey request (src :: rest) = extractApiKey request rest := by
  simp only [extractApiKey]
  cases hsrc : extractFromSource request src with
  | none => rfl
  | some k =>
    show (if k = "" then extractApiKey request rest else some k) = extractApiKey request rest
    rw [if_pos (h k hsrc)]

/-- C4: extraction tries the sources strictly in list order and returns
the key of the first source whose post-processed value is a non-empty
string, every earlier source contributing nothing; an empty source list,
or no source yielding a non-empty value, produces `none`. -/
theorem extractApiKey_first_match (request : Request) (sources : List ApiKeySource) :
    (extractApiKey request sources = none ↔ ∀ s ∈ sources, yieldsNoKey request s) ∧
    (∀ key, extractApiKey request sources = some key ↔
      (key ≠ "" ∧ ∃ l₁ s l₂, sources = l₁ ++ s :: l₂ ∧
        extractFromSource request s = some key ∧ ∀ t ∈ l₁, yieldsNoKey request t)) := by
  induction sources with
  | nil =>
    constructor
    · simp [extractApiKey]
    · intro key
      constructor
      · intro h
        exact Option.noConfusion h
      · rintro ⟨-, l₁, s, l₂, heq, -, -⟩
        simp at heq
  | cons src rest ih =>
    by_cases hno : yieldsNoKey request src
    · have hskip := extractApiKey_skips_source request src rest hno
      constructor
      · rw [hskip, ih.1]
        constructor
        · intro h s hs
          rcases List.mem_cons.mp hs with rfl | hs'
          · exact hno
          · exact h s hs'
        · intro h s hs
          exact h s (List.mem_cons_of_mem _ hs)
      · intro key
        rw [hskip, ih.2 key]
        constructor
        · rintro ⟨hne, l₁, s, l₂, rfl, hs, hpre⟩
          refine ⟨hne, src :: l₁, s, l₂, rfl, hs, ?_⟩
          intro t ht
          rcases List.mem_cons.mp ht with rfl | ht'
          · exact hno
          · exact hpre t ht'
        · rintro ⟨hne, l₁, s, l₂, heq, hs, hpre⟩
          cases l₁ with
          | nil =>
            simp only [List.nil_append, List.cons.injEq] at heq
            obtain ⟨rfl, rfl⟩ := heq
            exact absurd (hno key hs) hne
          | cons a l₁' =>
            simp only [List.cons_append, List.cons.injEq] at heq
            obtain ⟨rfl, rfl⟩ := heq
            exact ⟨hne, l₁', s, l₂, rfl, hs, fun t ht => hpre t (List.mem_cons_of_mem _ ht)⟩
    · -- src yields a non-empty key k
      simp only [yieldsNoKey, not_forall] at hno
      obtain ⟨k, hsrc, hk⟩ := hno
      have hrun : extractApiKey request (src :: rest) = some k := by
        simp only [extractApiKey, hsrc]
        rw [if_neg hk]
      constructor
      · rw [hrun]
        constructor
        · intro h
          exact Option.noConfusion h
        · intro h
          exact absurd (h src (by simp) k hsrc) hk
      · intro key
        rw [hrun]
        constructor
        · intro h
          obtain rfl : k = key := by injection h
          exact ⟨hk, [], src, rest, rfl, hsrc, by simp⟩
        · rintro ⟨hne, l₁, s, l₂, heq, hs, hpre⟩
          cases l₁ with
          | nil =>
            simp only [List.nil_append, List.cons.injEq] at heq
            obtain ⟨rfl, rfl⟩ := heq
            rw [hsrc] at hs
            injection hs with hs
            rw [hs]
          | cons a l₁' =>
            simp only [List.cons_append, List.cons.injEq] at heq
            obtain ⟨rfl, -⟩ := heq
            exact absurd (hpre src (by simp) k hsrc) hk

/-- Helper: raising an error never decorates the request. -/
theorem attached_raiseError (opts : PluginOptions) (e : ApiKeyError) :
    (raiseError opts e).attached = none := by
  simp only [raiseError]
  split <;> rfl

/-- Helper: raising an error never lets the request through. -/
theorem raiseError_ne_allowed (opts : PluginOptions) (e : ApiKeyError)
    (a : Option (ApiKeyData × List String)) : raiseError opts e ≠ .allowed a := by
  simp only [raiseError]
  split <;> simp

/-- C5: when extraction yields no key, the effective anonymous policy is
the route-level `allowAnonymous` when present, else the plugin default
(the override wins in both directions); when the effective policy is
true the request is allowed through with nothing attached, and when it
is false the guard raises (or hands to the custom error handler) the
`MissingApiKey` error, whose code is `MISSING_API_KEY` and status 401. -/
theorem guard_missing_key (opts : PluginOptions) (g : ApiKeyGuardOptions)
    (request : Request) (validate : String → ValidationResult)
    (hext : extractApiKey request opts.sources = none) :
    (g.allowAnonymous = none → g.allowAnonymous.getD opts.allowAnonymous = opts.allowAnonymous) ∧
    (∀ b, g.allowAnonymous = some b → g.allowAnonymous.getD opts.allowAnonymous = b) ∧
    (g.allowAnonymous.getD opts.allowAnonymous = true →
      createGuard opts g request validate = .allowed none) ∧
    (g.allowAnonymous.getD opts.allowAnonymous = false →
      createGuard opts g request validate = raiseError opts .missingApiKey ∧
      ApiKeyError.code .missingApiKey = "MISSING_API_KEY" ∧
      ApiKeyError.statusCode .missingApiKey = 401) := by
  refine ⟨fun h => by rw [h]; rfl, fun b h => by rw [h]; rfl, ?_, ?_⟩
  · intro hanon
    simp only [createGuard, hext, hanon]
    rfl
  · intro hanon
    refine ⟨?_, rfl, rfl⟩
    simp only [createGuard, hext, hanon]
    rfl

/-- C6: when a key is extracted and the validator returns
`valid: false`, an effective anonymous policy of true lets the request
through with nothing attached; otherwise the guard raises (or hands to
the custom error handler) an `InvalidApiKey` error, code
`INVALID_API_KEY`, status 401, whose message is the validator-supplied
`errorMessage` when present and the generic message otherwise. -/
theorem guard_invalid_key (opts : PluginOptions) (g : ApiKeyGuardOptions)
    (request : Request) (validate : String → ValidationResult) (key : String)
    (hext : extractApiKey request opts.sources = some key)
    (hv : (validate key).valid = false) :
    (g.allowAnonymous.getD opts.allowAnonymous = true →
      createGuard opts g request validate = .allowed none) ∧
    (g.allowAnonymous.getD opts.allowAnonymous = false →
      createGuard opts g request validate =
        raiseError opts (.invalidApiKey ((validate key).errorMessage.getD "Invalid API key"))) ∧
    (∀ m, (ApiKeyError.invalidApiKey m).code = "INVALID_API_KEY" ∧
      (ApiKeyError.invalidApiKey m).statusCode = 401) ∧
    (∀ m, (validate key).errorMessage = some m →
      (validate key).errorMessage.getD "Invalid API key" = m) ∧
    ((validate key).errorMessage = none →
      (validate key).errorMessage.getD "Invalid API key" = "Invalid API key") := by
  refine ⟨?_, ?_, fun m => ⟨rfl, rfl⟩, fun m h => by rw [h]; rfl, fun h => by rw [h]; rfl⟩
  · intro hanon
    simp only [createGuard, hext, hv, hanon]
    rfl
  · intro hanon
    simp only [createGuard, hext, hv, hanon]
    rfl

/-- C1 (as amended): when a key is extracted, the validator accepts it,
and scope validation fails, the guard raises (or hands to the custom
error handler) an `InsufficientScopes` error, code
`INSUFFICIENT_SCOPES`, status 403, whose `requiredScopes` field is the
route's `scopes` list whenever one is configured - even when the
all-required check passed and only the any-of check failed - else the
route's `anyScope` list, else empty, and whose `providedScopes` field is
the validator-supplied scopes. -/
theorem guard_insufficient_scopes (opts : PluginOptions) (g : ApiKeyGuardOptions)
    (request : Request) (validate : String → ValidationResult) (key : String)
    (hext : extractApiKey request opts.sources = some key)
    (hv : (validate key).valid = true)
    (hs : (validateScopes ((validate key).scopes.getD []) g.scopes g.anyScope).valid = false) :
    createGuard opts g request validate =
      raiseError opts
        (.insufficientScopes ((g.scopes.orElse fun _ => g.anyScope).getD [])
          ((validate key).scopes.getD [])) ∧
    (ApiKeyError.insufficientScopes ((g.scopes.orElse fun _ => g.anyScope).getD [])
        ((validate key).scopes.getD [])).code = "INSUFFICIENT_SCOPES" ∧
    (ApiKeyError.insufficientScopes ((g.scopes.orElse fun _ => g.anyScope).getD [])
        ((validate key).scopes.getD [])).statusCode = 403 ∧
    (ApiKeyError.insufficientScopes ((g.scopes.orElse fun _ => g.anyScope).getD [])
        ((validate key).scopes.getD [])).requiredScopes
      = (g.scopes.orElse fun _ => g.anyScope).getD [] ∧
    (ApiKeyError.insufficientScopes ((g.scopes.orElse fun _ => g.anyScope).getD [])
        ((validate key).scopes.getD [])).providedScopes
      = (validate key).scopes.getD [] := by
  refine ⟨?_, rfl, rfl, rfl, rfl⟩
  simp only [createGuard, hext, hv, hs]
  rfl

/-- C10: anonymous access never bypasses the scope check: when a key is
extracted, the validator accepts it, and scope validation fails, the
guard never allows the request, even when the effective anonymous policy
is true; it raises (or hands to the custom error handler) an
`INSUFFICIENT_SCOPES` error. -/
theorem guard_scope_failure_ignores_anonymous (opts : PluginOptions)
    (g : ApiKeyGuardOptions) (request : Request)
    (validate : String → ValidationResult) (key : String)
    (hext : extractApiKey request opts.sources = some key)
    (hv : (validate key).valid = true)
    (hs : (validateScopes ((validate key).scopes.getD []) g.scopes g.anyScope).valid = false)
    (_hanon : g.allowAnonymous.getD opts.allowAnonymous = true) :
    (∀ a, createGuard opts g request validate ≠ .allowed a) ∧
    ∃ e, createGuard opts g request validate = raiseError opts e ∧
      e.code = "INSUFFICIENT_SCOPES" := by
  have hout : createGuard opts g request validate =
      raiseError opts
        (.insufficientScopes ((g.scopes.orElse fun _ => g.anyScope).getD [])
          ((validate key).scopes.getD [])) := by
    simp only [createGuard, hext, hv, hs]
    rfl
  refine ⟨fun a => ?_, ⟨_, hout, rfl⟩⟩
  rw [hout]
  exact raiseError_ne_allowed opts _ a

/-- C2: the Authentication Context is attached to the request if and
only if a key was extracted, the validator returned `valid: true`, and
scope validation passed; when attached, its `key` field is the
`[REDACTED]` placeholder when `timingSafe` is set and the literal key
otherwise, its `scopes` are the validator-supplied scopes (empty when
none were supplied), its `metadata` is the validator's metadata or the
empty mapping, its `rateLimit` is passed through, and the same scope
list is exposed as the secondary `apiKeyScopes` field.  All
anonymous-access bypasses and error paths attach nothing. -/
theorem guard_context_invariant (opts : PluginOptions) (g : ApiKeyGuardOptions)
    (request : Request) (validate : String → ValidationResult) :
    ((createGuard opts g request validate).attached ≠ none ↔
      ∃ key, extractApiKey request opts.sources = some key ∧
        (validate key).valid = true ∧
        (validateScopes ((validate key).scopes.getD []) g.scopes g.anyScope).valid = true) ∧
    (∀ key ctx sc, extractApiKey request opts.sources = some key →
      (createGuard opts g request validate).attached = some (ctx, sc) →
        ctx.key = (if opts.timingSafe then "[REDACTED]" else key) ∧
        ctx.scopes = (validate key).scopes.getD [] ∧
        ctx.metadata = (validate key).metadata.getD Metadata.empty ∧
        ctx.rateLimit = (validate key).rateLimit ∧
        sc = ctx.scopes) := by
  cases hext : extractApiKey request opts.sources with
  | none =>
    have hatt : (createGuard opts g request validate).attached = none := by
      simp only [createGuard, hext]
      by_cases hanon : g.allowAnonymous.getD opts.allowAnonymous = true
      · rw [if_pos hanon]
        rfl
      · rw [if_neg hanon]
        exact attached_raiseError opts _
    constructor
    · rw [hatt]
      simp
    · intro key ctx sc hkey _
      exact Option.noConfusion hkey
  | some key0 =>
    by_cases hv : (validate key0).valid = true
    · by_cases hs :
        (validateScopes ((validate key0).scopes.getD []) g.scopes g.anyScope).valid = true
      · have hout : createGuard opts g request validate =
            .allowed (some
              ({ key := if opts.timingSafe then "[REDACTED]" else key0
                 scopes := (validate key0).scopes.getD []
                 rateLimit := (validate key0).rateLimit
                 metadata := (validate key0).metadata.getD Metadata.empty },
               (validate key0).scopes.getD [])) := by
          simp only [createGuard, hext, hv, hs]
          rfl
        constructor
        · rw [hout]
          simp only [GuardOutcome.attached, ne_eq, reduceCtorEq, not_false_eq_true, true_iff]
          exact ⟨key0, rfl, hv, hs⟩
        · intro key ctx sc hkey hatt
          obtain rfl : key0 = key := by injection hkey
          rw [hout] at hatt
          simp only [GuardOutcome.attached, Option.some.injEq, Prod.mk.injEq] at hatt
          obtain ⟨hctx, hsc⟩ := hatt
          subst hctx
          subst hsc
          exact ⟨rfl, rfl, rfl, rfl, rfl⟩
      · have hs' :
            (validateScopes ((validate key0).scopes.getD []) g.scopes g.anyScope).valid
              = false := eq_false_of_ne_true hs
        have hout : createGuard opts g request validate =
            raiseError opts
              (.insufficientScopes ((g.scopes.orElse fun _ => g.anyScope).getD [])
                ((validate key0).scopes.getD [])) := by
          simp only [createGuard, hext, hv, hs']
          rfl
        have hatt : (createGuard opts g request validate).attached = none := by
          rw [hout]
          exact attached_raiseError opts _
        constructor
        · rw [hatt]
          constructor
          · intro h
            exact absurd rfl h
          · rintro ⟨key, hkey, -, hs2⟩
            obtain rfl : key0 = key := by injection hkey
            exact absurd hs2 hs
        · intro key ctx sc hkey hatt2
          rw [hatt] at hatt2
          exact Option.noConfusion hatt2
    · have hv' : (validate key0).valid = false := eq_false_of_ne_true hv
      have hatt : (createGuard opts g request validate).attached = none := by
        have h1 : createGuard opts g request validate =
            (if g.allowAnonymous.getD opts.allowAnonymous then .allowed none
             else raiseError opts
               (.invalidApiKey ((validate key0).errorMessage.getD "Invalid API key"))) := by
          simp only [createGuard, hext, hv']
          rfl
        rw [h1]
        split
        · rfl
        · exact attached_raiseError opts _
      constructor
      · rw [hatt]
        constructor
        · intro h
          exact absurd rfl h
        · rintro ⟨key, hkey, hv2, -⟩
          obtain rfl : key0 = key := by injection hkey
          exact absurd hv2 hv
      · intro key ctx sc hkey hatt2
        rw [hatt] at hatt2
        exact Option.noConfusion hatt2

/-- Worked example from the specification: required passes, any-of
fails, and the reported `missing` is the any-of list. -/
theorem validateScopes_spec_example :
    validateScopes ["read", "write"] (some ["read", "write"]) (some ["admin", "super"])
      = { valid := false, missing := some ["admin", "super"] } := by
  decide

/-- Witness for C8 at concrete duplicated requirement lists. -/
theorem validateScopes_set_semantics_witness :
    (validateScopes ["read"] (some ["write", "write"]) (some ["admin", "admin"])).valid
      = (validateScopes ["read"] (some ["write"]) (some ["admin"])).valid :=
  (validateScopes_set_semantics ["read"] ["write", "write"] ["write"] ["admin", "admin"]
    ["admin"] (by intro s; simp) (by intro s; simp)).1

/-- Witness for C7: value `ApiKey my-secret` with prefix `ApiKey `
yields `my-secret`, and with prefix `Bearer ` yields the whole trimmed
value. -/
theorem extractFromSource_pfx_stripping_witness :
    extractFromSource (headerRequest "x-api-key" "ApiKey my-secret")
        { type := .header, name := "X-API-Key", pfx := some "ApiKey " } = some "my-secret" ∧
    extractFromSource (headerRequest "x-api-key" "ApiKey my-secret")
        { type := .header, name := "X-API-Key", pfx := some "Bearer " }
      = some "ApiKey my-secret" := by
  constructor
  · exact (extractFromSource_pfx_stripping (headerRequest "x-api-key" "ApiKey my-secret")
      "X-API-Key" "ApiKey " "ApiKey my-secret" (by decide) (by decide)).trans (by decide)
  · exact (extractFromSource_pfx_stripping (headerRequest "x-api-key" "ApiKey my-secret")
      "X-API-Key" "Bearer " "ApiKey my-secret" (by decide) (by decide)).trans (by decide)

/-- Witness for C5 on a request with no extractable key. -/
theorem guard_missing_key_witness :
    createGuard { sources := DEFAULT_SOURCES } {} emptyRequest readValidator
        = .thrownError .missingApiKey ∧
    createGuard { sources := DEFAULT_SOURCES, allowAnonymous := true } {} emptyRequest
        readValidator = .allowed none := by
  constructor
  · exact (((guard_missing_key { sources := DEFAULT_SOURCES } {} emptyRequest readValidator
      (by decide)).2.2.2 (by decide)).1).trans (by decide)
  · exact (guard_missing_key { sources := DEFAULT_SOURCES, allowAnonymous := true } {}
      emptyRequest readValidator (by decide)).2.2.1 (by decide)

/-- Witness for C6 on a rejected key, with and without a per-route
anonymous override. -/
theorem guard_invalid_key_witness :
    createGuard { sources := DEFAULT_SOURCES } {} (headerRequest "x-api-key" "k1")
        rejectValidator = .thrownError (.invalidApiKey "bad key") ∧
    createGuard { sources := DEFAULT_SOURCES } { allowAnonymous := some true }
        (headerRequest "x-api-key" "k1") rejectValidator = .allowed none := by
  constructor
  · exact ((guard_invalid_key { sources := DEFAULT_SOURCES } {}
      (headerRequest "x-api-key" "k1") rejectValidator "k1" (by decide) (by decide)).2.1
      (by decide)).trans (by decide)
  · exact (guard_invalid_key { sources := DEFAULT_SOURCES } { allowAnonymous := some true }
      (headerRequest "x-api-key" "k1") rejectValidator "k1" (by decide) (by decide)).1
      (by decide)

/-- Counterexample to C1 as stated: with `scopes = [read]`,
`anyScope = [admin, super]` and provided scopes `[read]`, the
all-required check passes and only the any-of check fails, yet the
raised error's `requiredScopes` is `[read]` (the route's `scopes`), not
the any-of set the claim requires. -/
theorem insufficientScopes_payload_counterexample :
    hasAllScopes ["read"] ["read"] = true ∧
    hasAnyScope ["read"] ["admin", "super"] = false ∧
    (validateScopes ["read"] (some ["read"]) (some ["admin", "super"])).valid = false ∧
    createGuard { sources := DEFAULT_SOURCES }
        { scopes := some ["read"], anyScope := some ["admin", "super"] }
        (headerRequest "x-api-key" "k1") readValidator
      = .thrownError (.insufficientScopes ["read"] ["read"]) ∧
    (["read"] : List String) ≠ ["admin", "super"] := by
  decide

/-- Witness for the amended C1 at a concrete scope failure. -/
theorem guard_insufficient_scopes_witness :
    createGuard { sources := DEFAULT_SOURCES }
        { scopes := some ["read"], anyScope := some ["admin", "super"] }
        (headerRequest "x-api-key" "k1") readValidator
      = .thrownError (.insufficientScopes ["read"] ["read"]) :=
  ((guard_insufficient_scopes { sources := DEFAULT_SOURCES }
    { scopes := some ["read"], anyScope := some ["admin", "super"] }
    (headerRequest "x-api-key" "k1") readValidator "k1"
    (by decide) (by decide) (by decide)).1).trans (by decide)

/-- Witness for C10: the scope failure is raised although the plugin
allows anonymous access. -/
theorem guard_scope_failure_ignores_anonymous_witness :
    ∃ e, createGuard { sources := DEFAULT_SOURCES, allowAnonymous := true }
        { scopes := some ["admin"] } (headerRequest "x-api-key" "k1") readValidator
      = raiseError { sources := DEFAULT_SOURCES, allowAnonymous := true } e ∧
      e.code = "INSUFFICIENT_SCOPES" :=
  (guard_scope_failure_ignores_anonymous
    { sources := DEFAULT_SOURCES, allowAnonymous := true } { scopes := some ["admin"] }
    (headerRequest "x-api-key" "k1") readValidator "k1"
    (by decide) (by decide) (by decide) (by decide)).2

end FastifyApiKey
